import Mathlib

/-!
Verification of the cursor-based pagination core of TokenPagination
(`repository/record_repository.go`): the continuation-token codec
(`encodeContinuationToken` / `decodeContinuationToken`) and the paginator
(`GetPaginated`).  Go strings are byte sequences and are modelled as lists
of byte values; `time.Time` is modelled as whole seconds since the Unix
epoch plus a nanosecond component; the SQL store is modelled as a list of
rows, with `SELECT ... WHERE ... ORDER BY ... LIMIT` interpreted as
filter, sort (descending by the 3-tuple) and take.
-/

namespace TokenPagination

/-- A Go string: a sequence of bytes. -/
abbrev GoStr := List Nat

/-- Model of Go `time.Time`: whole seconds since the Unix epoch plus a
sub-second nanosecond component.  `Unix()` returns the seconds field. -/
structure GoTime where
  sec : Int
  nsec : Nat
  deriving Repr, DecidableEq

/-- `time.Time.Unix()`: seconds since the epoch, sub-seconds dropped. -/
def GoTime.unix (t : GoTime) : Int := t.sec

/-! ### base64 URL encoding (Go `encoding/base64`, `URLEncoding`) -/

/-- The URL-safe base64 alphabet, as a map from a 6-bit value to the byte
of the character that represents it (`A-Z`, `a-z`, `0-9`, `-`, `_`). -/
def b64Char (v : Nat) : Nat :=
  let v := v % 64
  if v < 26 then 65 + v
  else if v < 52 then 97 + (v - 26)
  else if v < 62 then 48 + (v - 52)
  else if v = 62 then 45
  else 95

/-- `base64.URLEncoding.EncodeToString`: three input bytes become four
alphabet characters; a final partial group is completed with `=` (61)
padding. -/
def b64Encode : List Nat → List Nat
  | [] => []
  | [a] => [b64Char (a / 4), b64Char (a % 4 * 16), 61, 61]
  | [a, b] => [b64Char (a / 4), b64Char (a % 4 * 16 + b / 16), b64Char (b % 16 * 4), 61]
  | a :: b :: c :: rest =>
      b64Char (a / 4) :: b64Char (a % 4 * 16 + b / 16) ::
        b64Char (b % 16 * 4 + c / 64) :: b64Char (c % 64) :: b64Encode rest

/-- Inverse of the URL-safe alphabet: the 6-bit value of a character, or
`none` for a byte outside the alphabet. -/
def b64Val (c : Nat) : Option Nat :=
  if 65 ≤ c ∧ c ≤ 90 then some (c - 65)
  else if 97 ≤ c ∧ c ≤ 122 then some (26 + (c - 97))
  else if 48 ≤ c ∧ c ≤ 57 then some (52 + (c - 48))
  else if c = 45 then some 62
  else if c = 95 then some 63
  else none

/-- Decoding of four-character quanta: every full quantum yields three
bytes; the final quantum may end in `=` (one trailing byte dropped) or
`==` (two dropped), and padding must end the input.  A length that is
not a multiple of four, a character outside the alphabet, or padding in
the middle is an error (`none`). -/
def b64DecodeGroups : List Nat → Option (List Nat)
  | [] => some []
  | a :: b :: c :: d :: rest =>
    match b64Val a, b64Val b with
    | some va, some vb =>
      if c = 61 then
        if d = 61 ∧ rest = [] then some [va * 4 + vb / 16] else none
      else
        match b64Val c with
        | some vc =>
          if d = 61 then
            if rest = [] then some [va * 4 + vb / 16, vb % 16 * 16 + vc / 4] else none
          else
            match b64Val d with
            | some vd =>
              match b64DecodeGroups rest with
              | some bs =>
                  some ((va * 4 + vb / 16) :: (vb % 16 * 16 + vc / 4) :: (vc % 4 * 64 + vd) :: bs)
              | none => none
            | none => none
        | none => none
    | _, _ => none
  | _ => none

/-- `base64.URLEncoding.DecodeString`: carriage returns and newlines are
ignored, then the input is decoded in quanta of four characters. -/
def b64Decode (s : List Nat) : Option (List Nat) :=
  b64DecodeGroups (s.filter fun c => c != 13 && c != 10)

/-! ### Decimal formatting and parsing (`fmt.Sprintf("%d", ·)`, `strconv.ParseInt(·, 10, 64)`) -/

/-- Decimal digits, most significant first, by structural recursion on a
fuel bound; the number itself is enough fuel. -/
def natToDecFuel : Nat → Nat → List Nat
  | 0, n => [48 + n % 10]
  | fuel + 1, n => if n < 10 then [48 + n] else natToDecFuel fuel (n / 10) ++ [48 + n % 10]

/-- Decimal digits of a natural number, most significant first. -/
def natToDec (n : Nat) : List Nat := natToDecFuel n n

/-- `fmt.Sprintf("%d", i)` for a signed integer. -/
def intToDec (i : Int) : List Nat :=
  if i < 0 then 45 :: natToDec (-i).toNat else natToDec i.toNat

/-- Value of a digit string; `none` if any byte is not an ASCII digit. -/
def parseDigitsAux : List Nat → Nat → Option Nat
  | [], acc => some acc
  | d :: ds, acc =>
    if 48 ≤ d ∧ d ≤ 57 then parseDigitsAux ds (acc * 10 + (d - 48)) else none

/-- Value of a non-empty digit string. -/
def parseDigits : List Nat → Option Nat
  | [] => none
  | ds => parseDigitsAux ds 0

/-- `strconv.ParseInt(s, 10, 64)`: an optional sign, then at least one
decimal digit, and the value must fit in a signed 64-bit integer. -/
def parseInt64 (s : List Nat) : Option Int :=
  match s with
  | [] => none
  | c :: rest =>
    if c = 45 then
      match parseDigits rest with
      | some n => if (n : Int) ≤ 2 ^ 63 then some (-(n : Int)) else none
      | none => none
    else if c = 43 then
      match parseDigits rest with
      | some n => if (n : Int) ≤ 2 ^ 63 - 1 then some (n : Int) else none
      | none => none
    else
      match parseDigits s with
      | some n => if (n : Int) ≤ 2 ^ 63 - 1 then some (n : Int) else none
      | none => none

/-! ### Pipe splitting (`strings.Split(s, "|")`) -/

/-- `strings.Split(s, "|")`: the fields of `s` between occurrences of the
byte `|` (124).  Always returns at least one field. -/
def splitPipe : List Nat → List GoStr
  | [] => [[]]
  | c :: rest =>
    let parts := splitPipe rest
    if c = 124 then [] :: parts
    else
      match parts with
      | p :: ps => (c :: p) :: ps
      | [] => [[c]]

/-! ### The continuation-token codec -/

/-- The three failure modes of `decodeContinuationToken`. -/
inductive TokenError where
  | invalidEncoding
  | invalidFormat
  | invalidTimestamp
  deriving Repr, DecidableEq

/-- `encodeContinuationToken`: `fmt.Sprintf("%s|%s|%d", type, id,
createdAt.Unix())`, then base64 URL encoding. -/
def encodeContinuationToken (lastResourceType lastResourceID : GoStr)
    (lastCreatedAt : GoTime) : GoStr :=
  b64Encode (lastResourceType ++ (124 :: (lastResourceID ++ (124 :: intToDec lastCreatedAt.unix))))

/-- `decodeContinuationToken`: base64-decode, split on `|` into exactly
three fields, parse the third as a 64-bit integer; the timestamp is
rebuilt with `time.Unix(ts, 0)`, i.e. zero sub-second component. -/
def decodeContinuationToken (token : GoStr) :
    Except TokenError (GoStr × GoStr × GoTime) :=
  match b64Decode token with
  | none => .error .invalidEncoding
  | some decoded =>
    match splitPipe decoded with
    | [resourceType, resourceID, tsField] =>
      match parseInt64 tsField with
      | none => .error .invalidTimestamp
      | some ts => .ok (resourceType, resourceID, ⟨ts, 0⟩)
    | _ => .error .invalidFormat

/-! ### Rows and the row store -/

/-- A row of `resource_context`. -/
structure Record where
  resourceID : GoStr
  resourceType : GoStr
  context : Option GoStr
  createdAt : GoTime
  updatedAt : GoTime
  deriving Repr, DecidableEq

/-- The result of `GetPaginated`. -/
structure PaginatedResult where
  records : List Record
  nextContinuationToken : Option GoStr
  deriving Repr, DecidableEq

def DefaultPageSize : Int := 5

/-- Go/SQL byte-wise string comparison `s < t`. -/
def strLt : GoStr → GoStr → Bool
  | [], [] => false
  | [], _ :: _ => true
  | _ :: _, [] => false
  | a :: s, b :: t => decide (a < b) || (a == b && strLt s t)

/-- SQL timestamp comparison `a < b` (full precision). -/
def timeLt (a b : GoTime) : Bool :=
  decide (a.sec < b.sec) || (a.sec == b.sec && decide (a.nsec < b.nsec))

/-- Strict lexicographic order on the ordering 3-tuple
`(created_at, resource_type, resource_id)`, ties broken left to right. -/
def keyLt (a b : GoTime × GoStr × GoStr) : Bool :=
  timeLt a.1 b.1 ||
    (a.1 == b.1 &&
      (strLt a.2.1 b.2.1 || (a.2.1 == b.2.1 && strLt a.2.2 b.2.2)))

/-- The ordering 3-tuple of a row. -/
def Record.key (r : Record) : GoTime × GoStr × GoStr :=
  (r.createdAt, r.resourceType, r.resourceID)

/-- `a` is not strictly below `b` in the 3-tuple order: the relation in
which `ORDER BY created_at DESC, resource_type DESC, resource_id DESC`
lists the rows. -/
def rowGe (a b : Record) : Prop := keyLt a.key b.key = false

instance : DecidableRel rowGe := fun _ _ => inferInstanceAs (Decidable (_ = false))

/-- `a` is strictly above `b` in the descending 3-tuple order. -/
def gtRow (a b : Record) : Prop := keyLt b.key a.key = true

/-- First branch of the seek predicate: `created_at < ?`. -/
def seekBranch1 (row : Record) (curCreatedAt : GoTime) : Bool :=
  timeLt row.createdAt curCreatedAt

/-- Second branch: `created_at = ? AND resource_type < ?`. -/
def seekBranch2 (row : Record) (curCreatedAt : GoTime) (curType : GoStr) : Bool :=
  row.createdAt == curCreatedAt && strLt row.resourceType curType

/-- Third branch: `created_at = ? AND resource_type = ? AND resource_id < ?`. -/
def seekBranch3 (row : Record) (curCreatedAt : GoTime) (curType curID : GoStr) : Bool :=
  row.createdAt == curCreatedAt && row.resourceType == curType &&
    strLt row.resourceID curID

/-- The full `WHERE` clause of the seek query: the disjunction of the
three branches. -/
def seekFilter (row : Record) (curCreatedAt : GoTime) (curType curID : GoStr) : Bool :=
  seekBranch1 row curCreatedAt || seekBranch2 row curCreatedAt curType ||
    seekBranch3 row curCreatedAt curType curID

/-- `ORDER BY created_at DESC, resource_type DESC, resource_id DESC`:
sort the rows so that each precedes every row with a smaller 3-tuple. -/
def sortDesc (rows : List Record) : List Record :=
  rows.insertionSort rowGe

/-- The first-page query: no `WHERE`, descending order, `LIMIT`. -/
def queryFirstPage (db : List Record) (limit : Nat) : List Record :=
  (sortDesc db).take limit

/-- The seek query: seek `WHERE` clause, descending order, `LIMIT`. -/
def querySeekPage (db : List Record) (curCreatedAt : GoTime)
    (curType curID : GoStr) (limit : Nat) : List Record :=
  (sortDesc (db.filter fun row => seekFilter row curCreatedAt curType curID)).take limit

/-- The row-fetch phase of `GetPaginated` (lines 144–177): empty token
means the first page; otherwise decode the token (propagating errors) and
run the seek query.  Either query is limited to `pageSize + 1` rows. -/
def fetchRows (db : List Record) (continuationToken : GoStr) (pageSize : Int) :
    Except TokenError (List Record) :=
  if continuationToken = [] then
    .ok (queryFirstPage db (pageSize + 1).toNat)
  else
    match decodeContinuationToken continuationToken with
    | .error e => .error e
    | .ok (lastResourceType, lastResourceID, lastCreatedAt) =>
      .ok (querySeekPage db lastCreatedAt lastResourceType lastResourceID (pageSize + 1).toNat)

def defaultRecord : Record := ⟨[], [], none, ⟨0, 0⟩, ⟨0, 0⟩⟩

/-- The truncate-and-emit-token step of `GetPaginated` (lines 178–189):
if more than `pageSize` rows came back, keep the first `pageSize` and
encode the continuation token from the last *kept* row; otherwise return
everything with no token. -/
def buildResult (records : List Record) (pageSize : Int) : PaginatedResult :=
  if pageSize < (records.length : Int) then
    { records := records.take pageSize.toNat,
      nextContinuationToken :=
        some (encodeContinuationToken
          (records.getD (pageSize.toNat - 1) defaultRecord).resourceType
          (records.getD (pageSize.toNat - 1) defaultRecord).resourceID
          (records.getD (pageSize.toNat - 1) defaultRecord).createdAt) }
  else
    { records := records, nextContinuationToken := none }

/-- `GetPaginated`: normalize the page size, fetch `pageSize + 1` rows
(first page or seek page), then truncate and decide the token. -/
def getPaginated (db : List Record) (continuationToken : GoStr) (pageSize : Int) :
    Except TokenError PaginatedResult :=
  let pageSize := if pageSize ≤ 0 then DefaultPageSize else pageSize
  match fetchRows db continuationToken pageSize with
  | .error e => .error e
  | .ok records => .ok (buildResult records pageSize)

/-- A byte of the URL-safe token alphabet: `A–Z`, `a–z`, `0–9`, `-`,
`_` or the padding character `=`. -/
def urlSafeByte (c : Nat) : Prop :=
  (65 ≤ c ∧ c ≤ 90) ∨ (97 ≤ c ∧ c ≤ 122) ∨ (48 ≤ c ∧ c ≤ 57) ∨ c = 45 ∨ c = 95 ∨ c = 61

instance (c : Nat) : Decidable (urlSafeByte c) := by
  unfold urlSafeByte; infer_instance

/-- A well-formed Go string holding one of the key columns: a byte
sequence that does not contain the `|` delimiter (124). -/
def wfStr (s : GoStr) : Prop := (∀ b ∈ s, b < 256) ∧ 124 ∉ s

instance (s : GoStr) : Decidable (wfStr s) := by
  unfold wfStr; infer_instance

/-- A row as the schema can actually store it: key columns are pipe-free
byte strings, `created_at` is a whole second (the `timestamp` column
keeps no sub-second part) whose Unix value fits a signed 64-bit
integer. -/
def wfRecord (r : Record) : Prop :=
  wfStr r.resourceType ∧ wfStr r.resourceID ∧ r.createdAt.nsec = 0 ∧
    -(2 ^ 63) ≤ r.createdAt.sec ∧ r.createdAt.sec ≤ 2 ^ 63 - 1

instance (r : Record) : Decidable (wfRecord r) := by
  unfold wfRecord; infer_instance

/-- A full forward traversal: start from a token, follow
`NextContinuationToken` until none is returned, and concatenate the
pages.  `fuel` bounds the number of pages. -/
def traverse (db : List Record) (pageSize : Int) : Nat → GoStr → Except TokenError (List Record)
  | 0, _ => .ok []
  | fuel + 1, tok =>
    match getPaginated db tok pageSize with
    | .error e => .error e
    | .ok res =>
      match res.nextContinuationToken with
      | none => .ok res.records
      | some next =>
        match traverse db pageSize fuel next with
        | .error e => .error e
        | .ok rest => .ok (res.records ++ rest)

/-! ### Lemmas about the base64 alphabet and round trip -/

lemma b64Char_eq_mod (v : Nat) : b64Char v = b64Char (v % 64) := by
  have h : v % 64 % 64 = v % 64 := by omega
  simp only [b64Char, h]

lemma b64Char_urlSafe (v : Nat) : urlSafeByte (b64Char v) := by
  rw [b64Char_eq_mod]
  have h : ∀ w, w < 64 → urlSafeByte (b64Char w) := by decide
  exact h _ (by omega)

lemma b64Char_ne_pad (v : Nat) : b64Char v ≠ 61 := by
  rw [b64Char_eq_mod]
  have h : ∀ w, w < 64 → b64Char w ≠ 61 := by decide
  exact h _ (by omega)

lemma b64Val_b64Char (v : Nat) (h : v < 64) : b64Val (b64Char v) = some v := by
  have h2 : ∀ w, w < 64 → b64Val (b64Char w) = some w := by decide
  exact h2 v h

lemma b64Encode_urlSafe (s : List Nat) : ∀ c ∈ b64Encode s, urlSafeByte c := by
  induction s using b64Encode.induct with
  | case1 => intro c hc; simp [b64Encode] at hc
  | case2 a =>
    intro c hc
    simp only [b64Encode, List.mem_cons, List.not_mem_nil, or_false] at hc
    rcases hc with h | h | h | h <;> subst h
    · exact b64Char_urlSafe _
    · exact b64Char_urlSafe _
    · decide
    · decide
  | case3 a b =>
    intro c hc
    simp only [b64Encode, List.mem_cons, List.not_mem_nil, or_false] at hc
    rcases hc with h | h | h | h <;> subst h
    · exact b64Char_urlSafe _
    · exact b64Char_urlSafe _
    · exact b64Char_urlSafe _
    · decide
  | case4 a b c rest ih =>
    intro x hx
    simp only [b64Encode, List.mem_cons] at hx
    rcases hx with h | h | h | h | h
    · subst h; exact b64Char_urlSafe _
    · subst h; exact b64Char_urlSafe _
    · subst h; exact b64Char_urlSafe _
    · subst h; exact b64Char_urlSafe _
    · exact ih x h

lemma b64Encode_no_newline (s : List Nat) :
    (b64Encode s).filter (fun c => c != 13 && c != 10) = b64Encode s := by
  rw [List.filter_eq_self]
  intro c hc
  have h := b64Encode_urlSafe s c hc
  simp only [urlSafeByte] at h
  simp only [bne_iff_ne, Bool.and_eq_true, ne_eq, decide_eq_true_eq]
  omega

lemma b64DecodeGroups_encode (s : List Nat) (h : ∀ b ∈ s, b < 256) :
    b64DecodeGroups (b64Encode s) = some s := by
  induction s using b64Encode.induct with
  | case1 => rfl
  | case2 a =>
    have ha : a < 256 := h a (by simp)
    have h1 : b64Val (b64Char (a / 4)) = some (a / 4) := b64Val_b64Char _ (by omega)
    have h2 : b64Val (b64Char (a % 4 * 16)) = some (a % 4 * 16) := b64Val_b64Char _ (by omega)
    simp only [b64Encode, b64DecodeGroups, h1, h2, if_pos rfl, and_self, if_true,
      Option.some.injEq, List.cons.injEq, and_true]
    omega
  | case3 a b =>
    have ha : a < 256 := h a (by simp)
    have hb : b < 256 := h b (by simp)
    have h1 : b64Val (b64Char (a / 4)) = some (a / 4) := b64Val_b64Char _ (by omega)
    have h2 : b64Val (b64Char (a % 4 * 16 + b / 16)) = some (a % 4 * 16 + b / 16) :=
      b64Val_b64Char _ (by omega)
    have h3 : b64Val (b64Char (b % 16 * 4)) = some (b % 16 * 4) := b64Val_b64Char _ (by omega)
    simp [b64Encode, b64DecodeGroups, h1, h2, h3, b64Char_ne_pad]
    all_goals omega
  | case4 a b c rest ih =>
    have ha : a < 256 := h a (by simp)
    have hb : b < 256 := h b (by simp)
    have hc : c < 256 := h c (by simp)
    have hrest : ∀ x ∈ rest, x < 256 := fun x hx => h x (by simp [hx])
    have h1 : b64Val (b64Char (a / 4)) = some (a / 4) := b64Val_b64Char _ (by omega)
    have h2 : b64Val (b64Char (a % 4 * 16 + b / 16)) = some (a % 4 * 16 + b / 16) :=
      b64Val_b64Char _ (by omega)
    have h3 : b64Val (b64Char (b % 16 * 4 + c / 64)) = some (b % 16 * 4 + c / 64) :=
      b64Val_b64Char _ (by omega)
    have h4 : b64Val (b64Char (c % 64)) = some (c % 64) := b64Val_b64Char _ (by omega)
    simp only [b64Encode, b64DecodeGroups, h1, h2, h3, h4, if_neg (b64Char_ne_pad _),
      ih hrest, Option.some.injEq, List.cons.injEq]
    exact ⟨by omega, by omega, by omega, trivial⟩

lemma b64Decode_encode (s : List Nat) (h : ∀ b ∈ s, b < 256) :
    b64Decode (b64Encode s) = some s := by
  rw [b64Decode, b64Encode_no_newline, b64DecodeGroups_encode s h]

lemma b64Encode_ne_nil {s : List Nat} (h : s ≠ []) : b64Encode s ≠ [] := by
  match s with
  | [] => exact absurd rfl h
  | [_] => simp [b64Encode]
  | [_, _] => simp [b64Encode]
  | _ :: _ :: _ :: _ => simp [b64Encode]

/-! ### Lemmas about decimal formatting and parsing -/

lemma natToDecFuel_eq (fuel1 : Nat) :
    ∀ fuel2 n : Nat, n ≤ fuel1 → n ≤ fuel2 → natToDecFuel fuel1 n = natToDecFuel fuel2 n := by
  induction fuel1 with
  | zero =>
    intro fuel2 n h1 h2
    have hn : n = 0 := by omega
    subst hn
    cases fuel2 with
    | zero => rfl
    | succ f => simp [natToDecFuel]
  | succ f ih =>
    intro fuel2 n h1 h2
    cases fuel2 with
    | zero =>
      have hn : n = 0 := by omega
      subst hn
      simp [natToDecFuel]
    | succ f2 =>
      simp only [natToDecFuel]
      by_cases h : n < 10
      · rw [if_pos h, if_pos h]
      · rw [if_neg h, if_neg h, ih f2 (n / 10) (by omega) (by omega)]

lemma natToDec_step (n : Nat) :
    natToDec n = if n < 10 then [48 + n] else natToDec (n / 10) ++ [48 + n % 10] := by
  unfold natToDec
  by_cases h : n < 10
  · rw [if_pos h]
    cases n with
    | zero => simp [natToDecFuel]
    | succ m => simp [natToDecFuel, h]
  · rw [if_neg h]
    obtain ⟨m, rfl⟩ : ∃ m, n = m + 1 := ⟨n - 1, by omega⟩
    show natToDecFuel (m + 1) (m + 1) = _
    rw [natToDecFuel, if_neg h]
    congr 1
    exact natToDecFuel_eq m ((m + 1) / 10) ((m + 1) / 10) (by omega) (by omega)

lemma natToDec_digits (n : Nat) : ∀ d ∈ natToDec n, 48 ≤ d ∧ d ≤ 57 := by
  induction n using Nat.strong_induction_on with
  | _ n ih =>
    intro d hd
    rw [natToDec_step] at hd
    by_cases h : n < 10
    · rw [if_pos h] at hd
      simp at hd
      omega
    · rw [if_neg h] at hd
      rcases List.mem_append.1 hd with h1 | h1
      · exact ih (n / 10) (by omega) d h1
      · simp at h1; omega

lemma natToDec_ne_nil (n : Nat) : natToDec n ≠ [] := by
  rw [natToDec_step]
  split <;> simp

lemma parseDigitsAux_append (xs ys : List Nat) (acc : Nat) :
    parseDigitsAux (xs ++ ys) acc =
      match parseDigitsAux xs acc with
      | some a => parseDigitsAux ys a
      | none => none := by
  induction xs generalizing acc with
  | nil => rfl
  | cons d ds ih =>
    by_cases hd : 48 ≤ d ∧ d ≤ 57
    · simp only [List.cons_append, parseDigitsAux, if_pos hd]
      exact ih _
    · simp only [List.cons_append, parseDigitsAux, if_neg hd]

lemma parseDigitsAux_natToDec (n : Nat) :
    ∀ acc, parseDigitsAux (natToDec n) acc = some (acc * 10 ^ (natToDec n).length + n) := by
  induction n using Nat.strong_induction_on with
  | _ n ihs =>
    by_cases h : n < 10
    case pos =>
      intro acc
      rw [natToDec_step, if_pos h]
      simp only [parseDigitsAux]
      rw [if_pos (⟨by omega, by omega⟩ : (48 : Nat) ≤ 48 + n ∧ 48 + n ≤ 57)]
      simp only [List.length_singleton, pow_one, Option.some.injEq]
      omega
    case neg =>
      have ih := ihs (n / 10) (by omega)
      intro acc
      rw [natToDec_step, if_neg h]
      rw [parseDigitsAux_append, ih acc]
      simp only [parseDigitsAux]
      rw [if_pos (⟨by omega, by omega⟩ : (48 : Nat) ≤ 48 + n % 10 ∧ 48 + n % 10 ≤ 57)]
      have hsub : 48 + n % 10 - 48 = n % 10 := by omega
      have hn : n / 10 * 10 + n % 10 = n := by omega
      rw [hsub]
      refine congrArg some ?_
      rw [List.length_append, List.length_singleton, pow_succ]
      calc (acc * 10 ^ (natToDec (n / 10)).length + n / 10) * 10 + n % 10
          = acc * (10 ^ (natToDec (n / 10)).length * 10) + (n / 10 * 10 + n % 10) := by ring
        _ = acc * (10 ^ (natToDec (n / 10)).length * 10) + n := by rw [hn]

lemma parseDigits_natToDec (n : Nat) : parseDigits (natToDec n) = some n := by
  have h := parseDigitsAux_natToDec n 0
  cases hd : natToDec n with
  | nil => exact absurd hd (natToDec_ne_nil n)
  | cons d ds =>
    rw [hd] at h
    simpa [parseDigits] using h

lemma intToDec_bytes (i : Int) : ∀ d ∈ intToDec i, d < 256 ∧ d ≠ 124 := by
  intro d hd
  by_cases hneg : i < 0
  · rw [intToDec, if_pos hneg] at hd
    rcases List.mem_cons.1 hd with h | h
    · omega
    · have := natToDec_digits _ d h; omega
  · rw [intToDec, if_neg hneg] at hd
    have := natToDec_digits _ d hd; omega

lemma parseInt64_intToDec (i : Int) (h1 : -(2 ^ 63) ≤ i) (h2 : i ≤ 2 ^ 63 - 1) :
    parseInt64 (intToDec i) = some i := by
  by_cases hneg : i < 0
  · rw [intToDec, if_pos hneg]
    rw [parseInt64, if_pos rfl, parseDigits_natToDec]
    show (if ((-i).toNat : Int) ≤ 2 ^ 63 then some (-((-i).toNat : Int)) else none) = some i
    rw [if_pos (by omega : ((-i).toNat : Int) ≤ 2 ^ 63)]
    refine congrArg some ?_
    omega
  · rw [intToDec, if_neg hneg]
    rcases hd : natToDec i.toNat with _ | ⟨d, ds⟩
    · exact absurd hd (natToDec_ne_nil _)
    · have hdig := natToDec_digits i.toNat d (by rw [hd]; simp)
      rw [parseInt64, if_neg (by omega : ¬ d = 45), if_neg (by omega : ¬ d = 43)]
      rw [← hd, parseDigits_natToDec]
      show (if (i.toNat : Int) ≤ 2 ^ 63 - 1 then some ((i.toNat : Nat) : Int) else none) = some i
      rw [if_pos (by omega : ((i.toNat : Nat) : Int) ≤ 2 ^ 63 - 1)]
      refine congrArg some ?_
      omega

/-! ### Lemmas about pipe splitting -/

lemma splitPipe_ne_nil (s : List Nat) : splitPipe s ≠ [] := by
  induction s with
  | nil => simp [splitPipe]
  | cons c rest ih =>
    simp only [splitPipe]
    by_cases hc : c = 124
    · simp [hc]
    · simp only [if_neg hc]
      rcases h : splitPipe rest with _ | ⟨p, ps⟩
      · exact absurd h ih
      · simp [h]

lemma splitPipe_no_pipe (s : List Nat) (h : 124 ∉ s) : splitPipe s = [s] := by
  induction s with
  | nil => rfl
  | cons c rest ih =>
    have hc : c ≠ 124 := fun e => h (by simp [e])
    have hrest : 124 ∉ rest := fun hx => h (by simp [hx])
    simp only [splitPipe, if_neg hc, ih hrest]

lemma splitPipe_append (xs ys : List Nat) (h : 124 ∉ xs) :
    splitPipe (xs ++ (124 :: ys)) = xs :: splitPipe ys := by
  induction xs with
  | nil => simp [splitPipe]
  | cons c rest ih =>
    have hc : c ≠ 124 := fun e => h (by simp [e])
    have hrest : 124 ∉ rest := fun hx => h (by simp [hx])
    simp only [List.cons_append, splitPipe, List.append_eq, if_neg hc, ih hrest]

lemma splitPipe_length (s : List Nat) : (splitPipe s).length = s.count 124 + 1 := by
  induction s with
  | nil => rfl
  | cons c rest ih =>
    by_cases hc : c = 124
    · subst hc
      simp [splitPipe, ih, List.count_cons]
    · simp only [splitPipe, if_neg hc]
      rcases h : splitPipe rest with _ | ⟨p, ps⟩
      · exact absurd h (splitPipe_ne_nil rest)
      · rw [h] at ih
        simpa [List.count_cons, hc] using ih

/-! ### Lemmas about the token codec -/

lemma tokenData_bytes (t i : GoStr) (ts : GoTime)
    (ht : ∀ b ∈ t, b < 256) (hi : ∀ b ∈ i, b < 256) :
    ∀ b ∈ t ++ (124 :: (i ++ (124 :: intToDec ts.unix))), b < 256 := by
  intro b hb
  rcases List.mem_append.1 hb with h | h
  · exact ht b h
  · rcases List.mem_cons.1 h with h | h
    · omega
    · rcases List.mem_append.1 h with h | h
      · exact hi b h
      · rcases List.mem_cons.1 h with h | h
        · omega
        · exact (intToDec_bytes _ b h).1

lemma decodeContinuationToken_encode (t i : GoStr) (ts : GoTime)
    (ht : wfStr t) (hi : wfStr i)
    (h1 : -(2 ^ 63) ≤ ts.sec) (h2 : ts.sec ≤ 2 ^ 63 - 1) :
    decodeContinuationToken (encodeContinuationToken t i ts) = .ok (t, i, ⟨ts.sec, 0⟩) := by
  have hnp : 124 ∉ intToDec ts.sec := by
    intro hmem
    exact (intToDec_bytes _ _ hmem).2 rfl
  rw [encodeContinuationToken, decodeContinuationToken,
    b64Decode_encode _ (tokenData_bytes t i ts ht.1 hi.1)]
  simp only [splitPipe_append _ _ ht.2, splitPipe_append _ _ hi.2, splitPipe_no_pipe _ hnp,
    GoTime.unix, parseInt64_intToDec ts.sec h1 h2]

/-! ### Lemmas about the component orders -/

lemma strLt_irrefl (s : GoStr) : strLt s s = false := by
  induction s with
  | nil => rfl
  | cons a t ih => simp [strLt, ih]

lemma strLt_asymm (s t : GoStr) (h1 : strLt s t = true) (h2 : strLt t s = true) : False := by
  induction s generalizing t with
  | nil => cases t <;> simp [strLt] at h1 h2
  | cons a s ih =>
    cases t with
    | nil => simp [strLt] at h1
    | cons b t =>
      simp only [strLt, Bool.or_eq_true, Bool.and_eq_true, decide_eq_true_eq,
        beq_iff_eq] at h1 h2
      rcases h1 with h1 | ⟨e1, h1⟩ <;> rcases h2 with h2 | ⟨e2, h2⟩
      · omega
      · omega
      · omega
      · exact ih t h1 h2

lemma strLt_trans (s t u : GoStr) (h1 : strLt s t = true) (h2 : strLt t u = true) :
    strLt s u = true := by
  induction s generalizing t u with
  | nil =>
    cases u with
    | nil => cases t <;> simp [strLt] at h1 h2
    | cons c u => simp [strLt]
  | cons a s ih =>
    cases t with
    | nil => simp [strLt] at h1
    | cons b t =>
      cases u with
      | nil => simp [strLt] at h2
      | cons c u =>
        simp only [strLt, Bool.or_eq_true, Bool.and_eq_true, decide_eq_true_eq,
          beq_iff_eq] at h1 h2 ⊢
        rcases h1 with h1 | ⟨e1, h1⟩ <;> rcases h2 with h2 | ⟨e2, h2⟩
        · left; omega
        · left; omega
        · left; omega
        · right; exact ⟨by omega, ih t u h1 h2⟩

lemma strLt_connex (s t : GoStr) (h1 : strLt s t = false) (h2 : strLt t s = false) : s = t := by
  induction s generalizing t with
  | nil =>
    cases t with
    | nil => rfl
    | cons b t => simp [strLt] at h1
  | cons a s ih =>
    cases t with
    | nil => simp [strLt] at h2
    | cons b t =>
      rw [Bool.eq_false_iff] at h1 h2
      simp only [ne_eq, strLt, Bool.or_eq_true, Bool.and_eq_true, decide_eq_true_eq,
        beq_iff_eq, not_or, not_and] at h1 h2
      have e : a = b := by omega
      subst e
      have hs : strLt s t = false := Bool.eq_false_iff.2 (h1.2 rfl)
      have ht2 : strLt t s = false := Bool.eq_false_iff.2 (h2.2 rfl)
      rw [ih t hs ht2]

lemma timeLt_irrefl (a : GoTime) : timeLt a a = false := by simp [timeLt]

lemma timeLt_asymm (a b : GoTime) (h1 : timeLt a b = true) (h2 : timeLt b a = true) : False := by
  simp only [timeLt, Bool.or_eq_true, Bool.and_eq_true, decide_eq_true_eq, beq_iff_eq] at h1 h2
  omega

lemma timeLt_trans (a b c : GoTime) (h1 : timeLt a b = true) (h2 : timeLt b c = true) :
    timeLt a c = true := by
  simp only [timeLt, Bool.or_eq_true, Bool.and_eq_true, decide_eq_true_eq, beq_iff_eq]
    at h1 h2 ⊢
  omega

lemma timeLt_connex (a b : GoTime) (h1 : timeLt a b = false) (h2 : timeLt b a = false) :
    a = b := by
  obtain ⟨s1, n1⟩ := a
  obtain ⟨s2, n2⟩ := b
  rw [Bool.eq_false_iff] at h1 h2
  simp only [ne_eq, timeLt, Bool.or_eq_true, Bool.and_eq_true, decide_eq_true_eq, beq_iff_eq,
    not_or, not_and] at h1 h2
  have e1 : s1 = s2 := by omega
  subst e1
  have e2 : n1 = n2 := by
    have := h1.2 rfl
    have := h2.2 rfl
    omega
  rw [e2]

/-! ### The lexicographic-combination pattern shared by `keyLt` -/

lemma lexB_asymm {α β : Type} [BEq α] [LawfulBEq α] (lt1 : α → α → Bool) (lt2 : β → β → Bool)
    (irr1 : ∀ a, lt1 a a = false)
    (as1 : ∀ {a b}, lt1 a b = true → lt1 b a = true → False)
    (as2 : ∀ {x y}, lt2 x y = true → lt2 y x = true → False)
    {a b : α} {x y : β}
    (H1 : (lt1 a b || (a == b && lt2 x y)) = true)
    (H2 : (lt1 b a || (b == a && lt2 y x)) = true) : False := by
  simp only [Bool.or_eq_true, Bool.and_eq_true, beq_iff_eq] at H1 H2
  rcases H1 with H1 | ⟨e1, H1⟩
  · rcases H2 with H2 | ⟨e2, H2⟩
    · exact as1 H1 H2
    · subst e2; rw [irr1] at H1; simp at H1
  · rcases H2 with H2 | ⟨e2, H2⟩
    · subst e1; rw [irr1] at H2; simp at H2
    · exact as2 H1 H2

lemma lexB_trans {α β : Type} [BEq α] [LawfulBEq α] (lt1 : α → α → Bool) (lt2 : β → β → Bool)
    (tr1 : ∀ {a b c}, lt1 a b = true → lt1 b c = true → lt1 a c = true)
    (tr2 : ∀ {x y z}, lt2 x y = true → lt2 y z = true → lt2 x z = true)
    {a b c : α} {x y z : β}
    (H1 : (lt1 a b || (a == b && lt2 x y)) = true)
    (H2 : (lt1 b c || (b == c && lt2 y z)) = true) :
    (lt1 a c || (a == c && lt2 x z)) = true := by
  simp only [Bool.or_eq_true, Bool.and_eq_true, beq_iff_eq] at H1 H2 ⊢
  rcases H1 with H1 | ⟨e1, H1⟩
  · rcases H2 with H2 | ⟨e2, H2⟩
    · exact Or.inl (tr1 H1 H2)
    · subst e2; exact Or.inl H1
  · rcases H2 with H2 | ⟨e2, H2⟩
    · subst e1; exact Or.inl H2
    · subst e1; subst e2; exact Or.inr ⟨rfl, tr2 H1 H2⟩

lemma lexB_connex {α β : Type} [BEq α] [LawfulBEq α] (lt1 : α → α → Bool) (lt2 : β → β → Bool)
    (co1 : ∀ {a b}, lt1 a b = false → lt1 b a = false → a = b)
    (co2 : ∀ {x y}, lt2 x y = false → lt2 y x = false → x = y)
    {a b : α} {x y : β}
    (H1 : (lt1 a b || (a == b && lt2 x y)) = false)
    (H2 : (lt1 b a || (b == a && lt2 y x)) = false) : a = b ∧ x = y := by
  rw [Bool.or_eq_false_iff] at H1 H2
  have e : a = b := co1 H1.1 H2.1
  subst e
  have hx : lt2 x y = false := by
    have h := H1.2
    simpa using h
  have hy : lt2 y x = false := by
    have h := H2.2
    simpa using h
  exact ⟨rfl, co2 hx hy⟩

/-! ### The 3-tuple order -/

lemma keyLt_irrefl (k : GoTime × GoStr × GoStr) : keyLt k k = false := by
  obtain ⟨t, s, i⟩ := k
  simp [keyLt, timeLt_irrefl, strLt_irrefl]

lemma keyLt_asymm {x y : GoTime × GoStr × GoStr}
    (h1 : keyLt x y = true) (h2 : keyLt y x = true) : False := by
  obtain ⟨tx, sx, ix⟩ := x
  obtain ⟨ty, sy, iy⟩ := y
  simp only [keyLt] at h1 h2
  exact @lexB_asymm GoTime (GoStr × GoStr) _ _ timeLt
    (fun p q => strLt p.1 q.1 || (p.1 == q.1 && strLt p.2 q.2))
    timeLt_irrefl (fun ha hb => timeLt_asymm _ _ ha hb)
    (fun {p} {q} ha hb => by
      obtain ⟨p1, p2⟩ := p
      obtain ⟨q1, q2⟩ := q
      exact @lexB_asymm GoStr GoStr _ _ strLt strLt strLt_irrefl
        (fun hc hd => strLt_asymm _ _ hc hd) (fun hc hd => strLt_asymm _ _ hc hd)
        p1 q1 p2 q2 ha hb)
    tx ty (sx, ix) (sy, iy) h1 h2

lemma keyLt_trans {x y z : GoTime × GoStr × GoStr}
    (h1 : keyLt x y = true) (h2 : keyLt y z = true) : keyLt x z = true := by
  obtain ⟨tx, sx, ix⟩ := x
  obtain ⟨ty, sy, iy⟩ := y
  obtain ⟨tz, sz, iz⟩ := z
  simp only [keyLt] at h1 h2 ⊢
  exact @lexB_trans GoTime (GoStr × GoStr) _ _ timeLt
    (fun p q => strLt p.1 q.1 || (p.1 == q.1 && strLt p.2 q.2))
    (fun ha hb => timeLt_trans _ _ _ ha hb)
    (fun {p} {q} {r} ha hb => by
      obtain ⟨p1, p2⟩ := p
      obtain ⟨q1, q2⟩ := q
      obtain ⟨r1, r2⟩ := r
      exact @lexB_trans GoStr GoStr _ _ strLt strLt
        (fun hc hd => strLt_trans _ _ _ hc hd) (fun hc hd => strLt_trans _ _ _ hc hd)
        p1 q1 r1 p2 q2 r2 ha hb)
    tx ty tz (sx, ix) (sy, iy) (sz, iz) h1 h2

lemma keyLt_connex {x y : GoTime × GoStr × GoStr}
    (h1 : keyLt x y = false) (h2 : keyLt y x = false) : x = y := by
  obtain ⟨tx, sx, ix⟩ := x
  obtain ⟨ty, sy, iy⟩ := y
  simp only [keyLt] at h1 h2
  have h :=
    @lexB_connex GoTime (GoStr × GoStr) _ _ timeLt
      (fun p q => strLt p.1 q.1 || (p.1 == q.1 && strLt p.2 q.2))
      (fun ha hb => timeLt_connex _ _ ha hb)
      (fun {p} {q} ha hb => by
        obtain ⟨p1, p2⟩ := p
        obtain ⟨q1, q2⟩ := q
        have hpq :=
          @lexB_connex GoStr GoStr _ _ strLt strLt (fun hc hd => strLt_connex _ _ hc hd)
            (fun hc hd => strLt_connex _ _ hc hd) p1 q1 p2 q2 ha hb
        simp only [Prod.mk.injEq]
        exact hpq)
      tx ty (sx, ix) (sy, iy) h1 h2
  simp only [Prod.mk.injEq] at h ⊢
  exact ⟨h.1, h.2⟩

/-- The seek `WHERE` clause selects exactly the rows whose 3-tuple is
strictly below the cursor 3-tuple in the lexicographic order. -/
lemma seekFilter_eq_keyLt (row : Record) (ct : GoTime) (cty cid : GoStr) :
    seekFilter row ct cty cid = keyLt row.key (ct, cty, cid) := by
  simp only [seekFilter, seekBranch1, seekBranch2, seekBranch3, keyLt, Record.key]
  cases timeLt row.createdAt ct <;> cases row.createdAt == ct <;>
    cases strLt row.resourceType cty <;> cases row.resourceType == cty <;>
      cases strLt row.resourceID cid <;> rfl

/-! ### Lemmas about the sorted store -/

lemma rowGe_total (a b : Record) : rowGe a b ∨ rowGe b a := by
  unfold rowGe
  cases h1 : keyLt a.key b.key with
  | false => exact Or.inl rfl
  | true =>
    cases h2 : keyLt b.key a.key with
    | false => exact Or.inr rfl
    | true => exact (keyLt_asymm h1 h2).elim

lemma rowGe_trans (a b c : Record) (h1 : rowGe a b) (h2 : rowGe b c) : rowGe a c := by
  unfold rowGe at h1 h2 ⊢
  cases h3 : keyLt a.key c.key with
  | false => rfl
  | true =>
    exfalso
    cases h4 : keyLt b.key a.key with
    | true =>
      have h5 := keyLt_trans h4 h3
      rw [h5] at h2
      simp at h2
    | false =>
      have e := keyLt_connex h1 h4
      rw [← e, h3] at h2
      simp at h2

lemma sortDesc_perm (l : List Record) : List.Perm (sortDesc l) l :=
  List.perm_insertionSort rowGe l

lemma sortDesc_sorted (l : List Record) : List.Sorted rowGe (sortDesc l) := by
  haveI : IsTotal Record rowGe := ⟨rowGe_total⟩
  haveI : IsTrans Record rowGe := ⟨fun a b c => rowGe_trans a b c⟩
  exact List.sorted_insertionSort rowGe l

lemma pairwise_gtRow_of_sorted {l : List Record} (hs : List.Sorted rowGe l)
    (hne : l.Pairwise fun a b => a.key ≠ b.key) : l.Pairwise gtRow := by
  have hand := List.Pairwise.and hs hne
  refine hand.imp ?_
  intro a b hab
  obtain ⟨hge, hne2⟩ := hab
  unfold rowGe at hge
  unfold gtRow
  cases h : keyLt b.key a.key with
  | true => rfl
  | false => exact absurd (keyLt_connex hge h) hne2

lemma pairwise_ne_key {db : List Record}
    (h : db.Pairwise fun a b => (a.resourceType, a.resourceID) ≠ (b.resourceType, b.resourceID)) :
    db.Pairwise fun a b => a.key ≠ b.key := by
  refine h.imp ?_
  intro a b hne he
  apply hne
  have h1 := congrArg (fun k : GoTime × GoStr × GoStr => k.2.1) he
  have h2 := congrArg (fun k : GoTime × GoStr × GoStr => k.2.2) he
  simp only [Record.key] at h1 h2
  rw [h1, h2]

lemma sortDesc_pairwise_ne {db : List Record}
    (h : db.Pairwise fun a b => a.key ≠ b.key) :
    (sortDesc db).Pairwise fun a b => a.key ≠ b.key := by
  have hp : List.Perm db (sortDesc db) := (sortDesc_perm db).symm
  exact (List.Perm.pairwise_iff (fun hab => Ne.symm hab) hp).1 h

lemma sortDesc_pairwise_gtRow {db : List Record}
    (h : db.Pairwise fun a b => a.key ≠ b.key) :
    (sortDesc db).Pairwise gtRow :=
  pairwise_gtRow_of_sorted (sortDesc_sorted db) (sortDesc_pairwise_ne h)

lemma sortDesc_filter_eq (db : List Record) (p : Record → Bool)
    (hnd : db.Pairwise fun a b => a.key ≠ b.key) :
    sortDesc (db.filter p) = (sortDesc db).filter p := by
  haveI : IsAntisymm Record gtRow := ⟨fun a b h1 h2 => (keyLt_asymm h2 h1).elim⟩
  have hperm : List.Perm (sortDesc (db.filter p)) ((sortDesc db).filter p) :=
    (sortDesc_perm (db.filter p)).trans (List.Perm.filter p (sortDesc_perm db).symm)
  have hnd1 : (db.filter p).Pairwise fun a b => a.key ≠ b.key :=
    List.Pairwise.sublist (List.filter_sublist db) hnd
  have hs1 : (sortDesc (db.filter p)).Pairwise gtRow := sortDesc_pairwise_gtRow hnd1
  have hs2 : ((sortDesc db).filter p).Pairwise gtRow :=
    List.Pairwise.sublist (List.filter_sublist (sortDesc db)) (sortDesc_pairwise_gtRow hnd)
  exact List.eq_of_perm_of_sorted hperm hs1 hs2

lemma filter_keyLt_of_pairwise (x : Record) (A B : List Record)
    (hL : (A ++ x :: B).Pairwise gtRow) :
    (A ++ x :: B).filter (fun r => keyLt r.key x.key) = B := by
  rw [List.filter_append]
  rw [List.pairwise_append] at hL
  obtain ⟨hA, hxB, hcross⟩ := hL
  rw [List.pairwise_cons] at hxB
  obtain ⟨hxb, hB⟩ := hxB
  have h1 : (A.filter fun r => keyLt r.key x.key) = [] := by
    rw [List.filter_eq_nil_iff]
    intro a ha
    have hgt : gtRow a x := hcross a ha x (by simp)
    unfold gtRow at hgt
    cases hq : keyLt a.key x.key with
    | false => simp
    | true => exact (keyLt_asymm hq hgt).elim
  rw [h1, List.nil_append, List.filter_cons, if_neg (by simp [keyLt_irrefl])]
  rw [List.filter_eq_self]
  intro b hb
  exact hxb b hb

/-! ### Step equations for the paginator -/

lemma getPaginated_fetch (db : List Record) (tok : GoStr) (ps : Int) (hps : 0 < ps)
    (rows : List Record) (hfetch : fetchRows db tok ps = .ok rows) :
    getPaginated db tok ps = .ok (buildResult rows ps) := by
  unfold getPaginated
  simp only [if_neg (by omega : ¬ ps ≤ 0), hfetch]

lemma buildResult_le (records : List Record) (ps : Int) (h : (records.length : Int) ≤ ps) :
    buildResult records ps = ⟨records, none⟩ := by
  unfold buildResult
  rw [if_neg (by omega)]

lemma buildResult_gt (records : List Record) (ps : Int) (h : ps < (records.length : Int)) :
    buildResult records ps =
      ⟨records.take ps.toNat,
       some (encodeContinuationToken
         (records.getD (ps.toNat - 1) defaultRecord).resourceType
         (records.getD (ps.toNat - 1) defaultRecord).resourceID
         (records.getD (ps.toNat - 1) defaultRecord).createdAt)⟩ := by
  unfold buildResult
  rw [if_pos h]

lemma fetchRows_empty (db : List Record) (ps : Int) :
    fetchRows db [] ps = .ok (queryFirstPage db (ps + 1).toNat) := by
  unfold fetchRows
  rw [if_pos rfl]

lemma fetchRows_token (db : List Record) (tok : GoStr) (ps : Int) (hne : tok ≠ [])
    (t i : GoStr) (ts : GoTime) (hdec : decodeContinuationToken tok = .ok (t, i, ts)) :
    fetchRows db tok ps = .ok (querySeekPage db ts t i (ps + 1).toNat) := by
  unfold fetchRows
  rw [if_neg hne, hdec]

lemma querySeekPage_eq (db : List Record) (r : Record) (n : Nat)
    (hnd : db.Pairwise fun a b => a.key ≠ b.key)
    (A B : List Record) (hdecomp : sortDesc db = A ++ r :: B) :
    querySeekPage db r.createdAt r.resourceType r.resourceID n = B.take n := by
  unfold querySeekPage
  have hfil : (db.filter fun row => seekFilter row r.createdAt r.resourceType r.resourceID)
      = db.filter fun row => keyLt row.key r.key := by
    apply List.filter_congr
    intro row _
    rw [seekFilter_eq_keyLt]
    rfl
  rw [hfil, sortDesc_filter_eq db _ hnd]
  have hgt : (sortDesc db).Pairwise gtRow := sortDesc_pairwise_gtRow hnd
  rw [hdecomp] at hgt
  rw [hdecomp, filter_keyLt_of_pairwise r A B hgt]

lemma traverse_done (db : List Record) (ps : Int) (f : Nat) (tok : GoStr) (recs : List Record)
    (hg : getPaginated db tok ps = .ok ⟨recs, none⟩) :
    traverse db ps (f + 1) tok = .ok recs := by
  rw [traverse, hg]

lemma traverse_more (db : List Record) (ps : Int) (f : Nat) (tok tok2 : GoStr)
    (recs rest : List Record)
    (hg : getPaginated db tok ps = .ok ⟨recs, some tok2⟩)
    (hrec : traverse db ps f tok2 = .ok rest) :
    traverse db ps (f + 1) tok = .ok (recs ++ rest) := by
  rw [traverse, hg]
  show (match traverse db ps f tok2 with
        | Except.error e => Except.error e
        | Except.ok rst => Except.ok (recs ++ rst)) = Except.ok (recs ++ rest)
  rw [hrec]

/-! ### The full forward traversal -/

lemma traverse_suffix (db : List Record) (ps : Int) (hps : 0 < ps)
    (hnd : db.Pairwise fun a b => (a.resourceType, a.resourceID) ≠ (b.resourceType, b.resourceID))
    (hwf : ∀ r ∈ db, wfRecord r) :
    ∀ fuel : Nat, ∀ rest : List Record, ∀ tok : GoStr, rest.length < fuel →
      (∃ A, sortDesc db = A ++ rest) →
      fetchRows db tok ps = .ok (rest.take (ps + 1).toNat) →
      traverse db ps fuel tok = .ok rest := by
  have hndk : db.Pairwise fun a b => a.key ≠ b.key := pairwise_ne_key hnd
  intro fuel
  induction fuel with
  | zero => intro rest tok h _ _; omega
  | succ f ih =>
    intro rest tok hfuel hsuf hfetch
    obtain ⟨A, hA⟩ := hsuf
    by_cases hlen : rest.length ≤ ps.toNat
    · have htake : rest.take (ps + 1).toNat = rest := List.take_of_length_le (by omega)
      refine traverse_done db ps f tok rest ?_
      rw [getPaginated_fetch db tok ps hps _ hfetch, htake,
        buildResult_le rest ps (by omega)]
    · push_neg at hlen
      have hplen : (rest.take (ps + 1).toNat).length = ps.toNat + 1 := by
        rw [List.length_take]; omega
      have hbig : ps < ((rest.take (ps + 1).toNat).length : Int) := by
        rw [hplen]; omega
      have hidx : ps.toNat - 1 < rest.length := by omega
      have hidx2 : ps.toNat - 1 < (rest.take (ps + 1).toNat).length := by omega
      have hgetD : (rest.take (ps + 1).toNat).getD (ps.toNat - 1) defaultRecord
          = rest.get ⟨ps.toNat - 1, hidx⟩ := by
        rw [List.getD_eq_getElem _ _ hidx2]
        simp [List.getElem_take]
      have hrecords : (rest.take (ps + 1).toNat).take ps.toNat = rest.take ps.toNat := by
        rw [List.take_take]
        congr 1
        omega
      have hdropdec : rest.drop (ps.toNat - 1)
          = rest.get ⟨ps.toNat - 1, hidx⟩ :: rest.drop ps.toNat := by
        rw [List.drop_eq_getElem_cons hidx]
        have h1 : ps.toNat - 1 + 1 = ps.toNat := by omega
        rw [h1]
        rfl
      have hrest_decomp : rest
          = rest.take (ps.toNat - 1) ++ (rest.get ⟨ps.toNat - 1, hidx⟩ :: rest.drop ps.toNat) := by
        conv_lhs => rw [← List.take_append_drop (ps.toNat - 1) rest]
        rw [hdropdec]
      have hL_decomp : sortDesc db
          = (A ++ rest.take (ps.toNat - 1))
            ++ (rest.get ⟨ps.toNat - 1, hidx⟩ :: rest.drop ps.toNat) := by
        rw [hA, List.append_assoc]
        conv_lhs => rw [hrest_decomp]
      have hmem : rest.get ⟨ps.toNat - 1, hidx⟩ ∈ db := by
        refine ((sortDesc_perm db).mem_iff).1 ?_
        rw [hA]
        exact List.mem_append_right A (List.get_mem rest _ hidx)
      obtain ⟨hwt, hwi, hns, hsl, hsu⟩ := hwf _ hmem
      have htime : (⟨(rest.get ⟨ps.toNat - 1, hidx⟩).createdAt.sec, 0⟩ : GoTime)
          = (rest.get ⟨ps.toNat - 1, hidx⟩).createdAt := by
        rw [← hns]
      have hdec : decodeContinuationToken
          (encodeContinuationToken (rest.get ⟨ps.toNat - 1, hidx⟩).resourceType
            (rest.get ⟨ps.toNat - 1, hidx⟩).resourceID
            (rest.get ⟨ps.toNat - 1, hidx⟩).createdAt)
          = .ok ((rest.get ⟨ps.toNat - 1, hidx⟩).resourceType,
                 (rest.get ⟨ps.toNat - 1, hidx⟩).resourceID,
                 (rest.get ⟨ps.toNat - 1, hidx⟩).createdAt) := by
        rw [decodeContinuationToken_encode _ _ _ hwt hwi hsl hsu, htime]
      have htokne : encodeContinuationToken (rest.get ⟨ps.toNat - 1, hidx⟩).resourceType
          (rest.get ⟨ps.toNat - 1, hidx⟩).resourceID
          (rest.get ⟨ps.toNat - 1, hidx⟩).createdAt ≠ [] := by
        unfold encodeContinuationToken
        exact b64Encode_ne_nil (by simp)
      have hfetch2 : fetchRows db
          (encodeContinuationToken (rest.get ⟨ps.toNat - 1, hidx⟩).resourceType
            (rest.get ⟨ps.toNat - 1, hidx⟩).resourceID
            (rest.get ⟨ps.toNat - 1, hidx⟩).createdAt) ps
          = .ok ((rest.drop ps.toNat).take (ps + 1).toNat) := by
        rw [fetchRows_token db _ ps htokne _ _ _ hdec,
          querySeekPage_eq db _ _ hndk _ _ hL_decomp]
      have hnext : traverse db ps f
          (encodeContinuationToken (rest.get ⟨ps.toNat - 1, hidx⟩).resourceType
            (rest.get ⟨ps.toNat - 1, hidx⟩).resourceID
            (rest.get ⟨ps.toNat - 1, hidx⟩).createdAt)
          = .ok (rest.drop ps.toNat) := by
        refine ih (rest.drop ps.toNat) _ ?_ ?_ hfetch2
        · rw [List.length_drop]; omega
        · refine ⟨A ++ rest.take ps.toNat, ?_⟩
          rw [hA, List.append_assoc, List.take_append_drop]
      have hg : getPaginated db tok ps
          = .ok ⟨rest.take ps.toNat,
              some (encodeContinuationToken (rest.get ⟨ps.toNat - 1, hidx⟩).resourceType
                (rest.get ⟨ps.toNat - 1, hidx⟩).resourceID
                (rest.get ⟨ps.toNat - 1, hidx⟩).createdAt)⟩ := by
        rw [getPaginated_fetch db tok ps hps _ hfetch, buildResult_gt _ ps hbig, hgetD,
          hrecords]
      have hstep := traverse_more db ps f tok _ _ _ hg hnext
      rw [hstep, List.take_append_drop]

/-! ### Remaining helper lemmas -/

lemma decode_format_of_len (tok s : GoStr) (hb : b64Decode tok = some s)
    (hlen : (splitPipe s).length ≠ 3) :
    decodeContinuationToken tok = .error .invalidFormat := by
  unfold decodeContinuationToken
  rw [hb]
  rcases hsp : splitPipe s with _ | ⟨t, _ | ⟨i, _ | ⟨d, _ | ⟨e, rest⟩⟩⟩⟩
  · simp [hsp]
  · simp [hsp]
  · simp [hsp]
  · rw [hsp] at hlen
    simp at hlen
  · simp [hsp]

lemma buildResult_min (rows : List Record) (N : Int) (hN : 0 < N) :
    (buildResult rows N).records.length = min rows.length N.toNat ∧
    ((buildResult rows N).nextContinuationToken.isSome ↔ N < (rows.length : Int)) := by
  by_cases hlt : N < (rows.length : Int)
  · rw [buildResult_gt _ _ hlt]
    constructor
    · show (rows.take N.toNat).length = min rows.length N.toNat
      rw [List.length_take]
      omega
    · simp [hlt]
  · rw [buildResult_le _ _ (by omega)]
    constructor
    · show rows.length = min rows.length N.toNat
      omega
    · simp [hlt]

/-! ## The claims -/

/-- C1 (amended): for a store of rows with pairwise-distinct
`(resource_type, resource_id)` keys, pipe-free key bytes and
whole-second `created_at` values (as the `timestamp` column stores),
and any positive page size, starting `GetPaginated` with an empty
continuation token and resubmitting each returned
`NextContinuationToken` until none is returned yields every row exactly
once, in descending lexicographic order of
`(created_at, resource_type, resource_id)`. -/
theorem traversal_exhaustive (db : List Record) (ps : Int) (hps : 0 < ps)
    (hnd : db.Pairwise fun a b => (a.resourceType, a.resourceID) ≠ (b.resourceType, b.resourceID))
    (hwf : ∀ r ∈ db, wfRecord r) :
    ∃ out : List Record,
      traverse db ps (db.length + 1) [] = .ok out ∧
      List.Perm out db ∧
      out.Pairwise fun a b => keyLt b.key a.key = true := by
  refine ⟨sortDesc db, ?_, sortDesc_perm db, sortDesc_pairwise_gtRow (pairwise_ne_key hnd)⟩
  refine traverse_suffix db ps hps hnd hwf (db.length + 1) (sortDesc db) [] ?_ ⟨[], rfl⟩ ?_
  · rw [(sortDesc_perm db).length_eq]
    omega
  · rw [fetchRows_empty]
    rfl

/-- C1 witness: a concrete two-row store, page size 1, traversed
completely. -/
theorem traversal_exhaustive_witness :
    ∃ out : List Record,
      traverse [⟨[97], [116], none, ⟨10, 0⟩, ⟨0, 0⟩⟩,
                ⟨[98], [116], none, ⟨9, 0⟩, ⟨0, 0⟩⟩] 1 3 [] = .ok out ∧
      List.Perm out [⟨[97], [116], none, ⟨10, 0⟩, ⟨0, 0⟩⟩,
                     ⟨[98], [116], none, ⟨9, 0⟩, ⟨0, 0⟩⟩] ∧
      out.Pairwise fun a b => keyLt b.key a.key = true :=
  traversal_exhaustive
    [⟨[97], [116], none, ⟨10, 0⟩, ⟨0, 0⟩⟩, ⟨[98], [116], none, ⟨9, 0⟩, ⟨0, 0⟩⟩]
    1 (by decide) (by decide) (by decide)

/-- C1 counterexample: with sub-second timestamps the claim as stated
fails — the cursor truncates to whole seconds, so the second row
(`created_at` 10.4s, strictly between the reconstructed cursor 10.0s
and the first row's 10.5s) is skipped and the traversal returns only
the first row. -/
theorem traversal_subsecond_counterexample :
    traverse [⟨[97], [116], none, ⟨10, 500000000⟩, ⟨0, 0⟩⟩,
              ⟨[98], [116], none, ⟨10, 400000000⟩, ⟨0, 0⟩⟩] 1 3 []
      = .ok [⟨[97], [116], none, ⟨10, 500000000⟩, ⟨0, 0⟩⟩] ∧
    ¬ List.Perm [(⟨[97], [116], none, ⟨10, 500000000⟩, ⟨0, 0⟩⟩ : Record)]
        [⟨[97], [116], none, ⟨10, 500000000⟩, ⟨0, 0⟩⟩,
         ⟨[98], [116], none, ⟨10, 400000000⟩, ⟨0, 0⟩⟩] :=
  ⟨rfl, by decide⟩

/-- C2: with effective page size `n > 0`, a store reply of exactly
`n + 1` rows yields the first `n` rows and a token encoded from the
`n`-th retained row (not the discarded extra row); a reply of `n` or
fewer rows yields all rows and no token. -/
theorem buildResult_page_boundary (rows : List Record) (n : Nat) (hn : 0 < n) :
    (∀ h : rows.length = n + 1,
      buildResult rows (n : Int)
        = ⟨rows.take n,
           some (encodeContinuationToken (rows.get ⟨n - 1, by omega⟩).resourceType
             (rows.get ⟨n - 1, by omega⟩).resourceID
             (rows.get ⟨n - 1, by omega⟩).createdAt)⟩) ∧
    (rows.length ≤ n → buildResult rows (n : Int) = ⟨rows, none⟩) := by
  constructor
  · intro h
    have hcast : ((n : Int)).toNat = n := by omega
    have hlt : (n : Int) < (rows.length : Int) := by omega
    rw [buildResult_gt _ _ hlt, hcast]
    have hgd : rows.getD (n - 1) defaultRecord = rows.get ⟨n - 1, by omega⟩ := by
      rw [List.getD_eq_getElem _ _ (by omega)]
      rfl
    rw [hgd]
  · intro h
    exact buildResult_le _ _ (by omega)

/-- C2 witness: two rows at page size 1 produce one row and a token
from that row; one row at page size 1 is terminal. -/
theorem buildResult_page_boundary_witness :
    buildResult [⟨[97], [116], none, ⟨10, 0⟩, ⟨0, 0⟩⟩,
                 ⟨[98], [116], none, ⟨9, 0⟩, ⟨0, 0⟩⟩] 1
      = ⟨[⟨[97], [116], none, ⟨10, 0⟩, ⟨0, 0⟩⟩],
         some (encodeContinuationToken [116] [97] ⟨10, 0⟩)⟩ ∧
    buildResult [⟨[97], [116], none, ⟨10, 0⟩, ⟨0, 0⟩⟩] 1
      = ⟨[⟨[97], [116], none, ⟨10, 0⟩, ⟨0, 0⟩⟩], none⟩ :=
  ⟨(buildResult_page_boundary
      [⟨[97], [116], none, ⟨10, 0⟩, ⟨0, 0⟩⟩, ⟨[98], [116], none, ⟨9, 0⟩, ⟨0, 0⟩⟩]
      1 (by decide)).1 rfl,
   (buildResult_page_boundary [⟨[97], [116], none, ⟨10, 0⟩, ⟨0, 0⟩⟩]
      1 (by decide)).2 (by decide)⟩

/-- C3 (amended): for every cursor position whose `resourceType` and
`resourceID` are byte strings free of the `|` delimiter, decoding the
encoded token succeeds and returns the same `resourceType`, the same
`resourceID`, and the timestamp truncated to whole seconds with zero
sub-second component. -/
theorem token_roundtrip (resourceType resourceID : GoStr) (ts : GoTime)
    (ht : wfStr resourceType) (hi : wfStr resourceID)
    (h1 : -(2 ^ 63) ≤ ts.sec) (h2 : ts.sec ≤ 2 ^ 63 - 1) :
    decodeContinuationToken (encodeContinuationToken resourceType resourceID ts)
      = .ok (resourceType, resourceID, ⟨ts.sec, 0⟩) :=
  decodeContinuationToken_encode _ _ _ ht hi h1 h2

/-- C3 witness: a concrete position with a sub-second component, whose
round trip restores the whole-second timestamp. -/
theorem token_roundtrip_witness :
    decodeContinuationToken (encodeContinuationToken [116] [97] ⟨10, 500000000⟩)
      = .ok ([116], [97], ⟨10, 0⟩) :=
  token_roundtrip [116] [97] ⟨10, 500000000⟩ (by decide) (by decide) (by decide) (by decide)

/-- C3 counterexample: a position whose `resourceType` contains the
`|` byte does not round-trip — decoding the encoded token fails with
the invalid-format error instead of returning the position. -/
theorem token_roundtrip_pipe_counterexample :
    decodeContinuationToken (encodeContinuationToken [124] [] ⟨0, 0⟩)
      ≠ .ok ([124], [], ⟨0, 0⟩) ∧
    decodeContinuationToken (encodeContinuationToken [124] [] ⟨0, 0⟩)
      = .error .invalidFormat := by
  refine ⟨?_, rfl⟩
  intro h
  rw [show decodeContinuationToken (encodeContinuationToken [124] [] ⟨0, 0⟩)
      = Except.error TokenError.invalidFormat from rfl] at h
  exact Except.noConfusion h

/-- C4: the three-branch seek filter holds exactly when the row's
3-tuple is strictly below the cursor's 3-tuple in the left-to-right
lexicographic order, and the three branches are mutually exclusive. -/
theorem seekFilter_lexicographic (row : Record) (curCreatedAt : GoTime)
    (curType curID : GoStr) :
    (seekFilter row curCreatedAt curType curID = true
      ↔ keyLt row.key (curCreatedAt, curType, curID) = true) ∧
    ¬(seekBranch1 row curCreatedAt = true ∧ seekBranch2 row curCreatedAt curType = true) ∧
    ¬(seekBranch1 row curCreatedAt = true
        ∧ seekBranch3 row curCreatedAt curType curID = true) ∧
    ¬(seekBranch2 row curCreatedAt curType = true
        ∧ seekBranch3 row curCreatedAt curType curID = true) := by
  refine ⟨by rw [seekFilter_eq_keyLt], ?_, ?_, ?_⟩
  · rintro ⟨h1, h2⟩
    simp only [seekBranch1, seekBranch2, Bool.and_eq_true, beq_iff_eq] at h1 h2
    rw [h2.1, timeLt_irrefl] at h1
    simp at h1
  · rintro ⟨h1, h2⟩
    simp only [seekBranch1, seekBranch3, Bool.and_eq_true, beq_iff_eq] at h1 h2
    rw [h2.1.1, timeLt_irrefl] at h1
    simp at h1
  · rintro ⟨h1, h2⟩
    simp only [seekBranch2, seekBranch3, Bool.and_eq_true, beq_iff_eq] at h1 h2
    obtain ⟨hca, hlt1⟩ := h1
    obtain ⟨⟨hca2, hty⟩, hlt2⟩ := h2
    rw [hty, strLt_irrefl] at hlt1
    simp at hlt1

/-- C4 witness: the seek filter agrees with the lexicographic order on
a concrete row strictly below a concrete cursor. -/
theorem seekFilter_lexicographic_witness :
    (seekFilter ⟨[97], [116], none, ⟨9, 0⟩, ⟨0, 0⟩⟩ ⟨10, 0⟩ [116] [97] = true
      ↔ keyLt (Record.key ⟨[97], [116], none, ⟨9, 0⟩, ⟨0, 0⟩⟩) (⟨10, 0⟩, [116], [97]) = true) ∧
    ¬(seekBranch1 ⟨[97], [116], none, ⟨9, 0⟩, ⟨0, 0⟩⟩ ⟨10, 0⟩ = true
        ∧ seekBranch2 ⟨[97], [116], none, ⟨9, 0⟩, ⟨0, 0⟩⟩ ⟨10, 0⟩ [116] = true) ∧
    ¬(seekBranch1 ⟨[97], [116], none, ⟨9, 0⟩, ⟨0, 0⟩⟩ ⟨10, 0⟩ = true
        ∧ seekBranch3 ⟨[97], [116], none, ⟨9, 0⟩, ⟨0, 0⟩⟩ ⟨10, 0⟩ [116] [97] = true) ∧
    ¬(seekBranch2 ⟨[97], [116], none, ⟨9, 0⟩, ⟨0, 0⟩⟩ ⟨10, 0⟩ [116] = true
        ∧ seekBranch3 ⟨[97], [116], none, ⟨9, 0⟩, ⟨0, 0⟩⟩ ⟨10, 0⟩ [116] [97] = true) :=
  seekFilter_lexicographic ⟨[97], [116], none, ⟨9, 0⟩, ⟨0, 0⟩⟩ ⟨10, 0⟩ [116] [97]

/-- C5: `decodeContinuationToken` fails in exactly three ways — input
that is not valid URL-safe base64 gives the invalid-encoding error; a
decoded string that does not split on `|` into exactly 3 fields gives
the invalid-format error; a third field that does not parse as a 64-bit
base-10 integer gives the invalid-timestamp error; every other input
succeeds. -/
theorem decode_error_classes (token : GoStr) :
    (decodeContinuationToken token = .error .invalidEncoding ↔ b64Decode token = none) ∧
    (decodeContinuationToken token = .error .invalidFormat
      ↔ ∃ s, b64Decode token = some s ∧ (splitPipe s).length ≠ 3) ∧
    (decodeContinuationToken token = .error .invalidTimestamp
      ↔ ∃ s t i d, b64Decode token = some s ∧ splitPipe s = [t, i, d]
          ∧ parseInt64 d = none) ∧
    ((∃ v, decodeContinuationToken token = .ok v)
      ↔ ∃ s t i d n, b64Decode token = some s ∧ splitPipe s = [t, i, d]
          ∧ parseInt64 d = some n) := by
  unfold decodeContinuationToken
  cases hb : b64Decode token with
  | none => simp
  | some s =>
    have hne := splitPipe_ne_nil s
    rcases hsp : splitPipe s with _ | ⟨t, _ | ⟨i, _ | ⟨d, _ | ⟨e, rest⟩⟩⟩⟩
    · exact absurd hsp hne
    · simp [hsp]
    · simp [hsp]
    · cases hpi : parseInt64 d with
      | none =>
        simp [hsp, hpi]
        exact ⟨t, i, d, ⟨rfl, rfl, rfl⟩, hpi⟩
      | some n =>
        simp [hsp, hpi]
        exact ⟨t, i, d, ⟨rfl, rfl, rfl⟩, n, hpi⟩
    · simp [hsp]

/-- C5 witness: the error classification instantiated at the
non-base64 token `"!"` (byte 33). -/
theorem decode_error_classes_witness :
    (decodeContinuationToken [33] = .error .invalidEncoding ↔ b64Decode [33] = none) ∧
    (decodeContinuationToken [33] = .error .invalidFormat
      ↔ ∃ s, b64Decode [33] = some s ∧ (splitPipe s).length ≠ 3) ∧
    (decodeContinuationToken [33] = .error .invalidTimestamp
      ↔ ∃ s t i d, b64Decode [33] = some s ∧ splitPipe s = [t, i, d]
          ∧ parseInt64 d = none) ∧
    ((∃ v, decodeContinuationToken [33] = .ok v)
      ↔ ∃ s t i d n, b64Decode [33] = some s ∧ splitPipe s = [t, i, d]
          ∧ parseInt64 d = some n) :=
  decode_error_classes [33]

/-- C6: a non-positive page size behaves exactly like page size 5 (the
default), returning at most 5 records. -/
theorem getPaginated_default_pageSize (db : List Record) (tok : GoStr) (ps : Int)
    (hps : ps ≤ 0) :
    getPaginated db tok ps = getPaginated db tok 5 ∧
    (∀ res, getPaginated db tok 5 = .ok res → res.records.length ≤ 5) := by
  constructor
  · simp only [getPaginated, if_pos hps, if_neg (by omega : ¬ (5 : Int) ≤ 0), DefaultPageSize]
  · intro res hres
    simp only [getPaginated, if_neg (by omega : ¬ (5 : Int) ≤ 0)] at hres
    cases hf : fetchRows db tok 5 with
    | error e => rw [hf] at hres; exact Except.noConfusion hres
    | ok rows =>
      rw [hf] at hres
      have hres2 : res = buildResult rows 5 := by
        have := hres
        injection this with h
        exact h.symm
      rw [hres2]
      unfold buildResult
      by_cases h : (5 : Int) < (rows.length : Int)
      · rw [if_pos h]
        show (rows.take (5 : Int).toNat).length ≤ 5
        rw [List.length_take]
        omega
      · rw [if_neg h]
        show rows.length ≤ 5
        omega

/-- C6 witness: page size 0 on the empty store behaves like page size
5. -/
theorem getPaginated_default_pageSize_witness :
    getPaginated [] [] 0 = getPaginated [] [] 5 ∧
    (getPaginated [] [] 5 = .ok ⟨[], none⟩ → ([] : List Record).length ≤ 5) :=
  ⟨(getPaginated_default_pageSize [] [] 0 (by decide)).1,
   fun h => (getPaginated_default_pageSize [] [] 0 (by decide)).2 ⟨[], none⟩ h⟩

/-- C7: encoding is deterministic — equal inputs give equal tokens —
and every byte of the token lies in the URL-safe alphabet
(`A–Z`, `a–z`, `0–9`, `-`, `_`, `=`). -/
theorem encode_deterministic_urlSafe (t1 i1 : GoStr) (ts1 : GoTime)
    (t2 i2 : GoStr) (ts2 : GoTime) :
    (t1 = t2 → i1 = i2 → ts1 = ts2 →
      encodeContinuationToken t1 i1 ts1 = encodeContinuationToken t2 i2 ts2) ∧
    ∀ c ∈ encodeContinuationToken t1 i1 ts1, urlSafeByte c := by
  constructor
  · intro h1 h2 h3
    rw [h1, h2, h3]
  · intro c hc
    exact b64Encode_urlSafe _ c hc

/-- C7 witness: the token of a concrete position equals itself, and its
first byte (100, the letter `d`) is URL-safe. -/
theorem encode_deterministic_urlSafe_witness :
    encodeContinuationToken [116] [97] ⟨10, 0⟩ = encodeContinuationToken [116] [97] ⟨10, 0⟩ ∧
    urlSafeByte 100 :=
  ⟨(encode_deterministic_urlSafe [116] [97] ⟨10, 0⟩ [116] [97] ⟨10, 0⟩).1 rfl rfl rfl,
   (encode_deterministic_urlSafe [116] [97] ⟨10, 0⟩ [116] [97] ⟨10, 0⟩).2 100 (by decide)⟩

/-- C8: the encoder does not escape the `|` delimiter, so a position
whose `resourceType` or `resourceID` contains `|` does not round-trip:
decoding its token fails with the invalid-format or invalid-timestamp
error (in fact always invalid-format, since the decoded data splits
into more than 3 fields). -/
theorem token_pipe_not_lossless (t i : GoStr) (ts : GoTime)
    (hp : 124 ∈ t ∨ 124 ∈ i)
    (ht : ∀ b ∈ t, b < 256) (hi : ∀ b ∈ i, b < 256) :
    decodeContinuationToken (encodeContinuationToken t i ts) = .error .invalidFormat ∨
    decodeContinuationToken (encodeContinuationToken t i ts) = .error .invalidTimestamp := by
  left
  have hb : b64Decode (encodeContinuationToken t i ts)
      = some (t ++ (124 :: (i ++ (124 :: intToDec ts.unix)))) := by
    unfold encodeContinuationToken
    exact b64Decode_encode _ (tokenData_bytes t i ts ht hi)
  refine decode_format_of_len _ _ hb ?_
  rw [splitPipe_length]
  have hdec0 : (intToDec ts.unix).count 124 = 0 :=
    List.count_eq_zero_of_not_mem fun hm => (intToDec_bytes _ _ hm).2 rfl
  have hpos : 0 < t.count 124 ∨ 0 < i.count 124 := by
    rcases hp with h | h
    · exact Or.inl (List.count_pos_iff.2 h)
    · exact Or.inr (List.count_pos_iff.2 h)
  simp only [List.count_append, List.count_cons_self, hdec0]
  omega

/-- C8 witness: a type containing only the `|` byte fails to
round-trip. -/
theorem token_pipe_not_lossless_witness :
    decodeContinuationToken (encodeContinuationToken [124] [97] ⟨0, 0⟩)
      = .error .invalidFormat ∨
    decodeContinuationToken (encodeContinuationToken [124] [97] ⟨0, 0⟩)
      = .error .invalidTimestamp :=
  token_pipe_not_lossless [124] [97] ⟨0, 0⟩ (Or.inl (by decide)) (by decide) (by decide)

/-- C9: a non-empty continuation token that fails to decode makes
`GetPaginated` return exactly the decode error, with no result and no
dependence on the store contents (no query is issued). -/
theorem getPaginated_invalid_token (db : List Record) (tok : GoStr) (ps : Int)
    (e : TokenError) (hne : tok ≠ [])
    (hdec : decodeContinuationToken tok = .error e) :
    getPaginated db tok ps = .error e ∧
    ∀ db2 : List Record, getPaginated db2 tok ps = getPaginated db tok ps := by
  have hfetch : ∀ (db2 : List Record) (n : Int), fetchRows db2 tok n = .error e := by
    intro db2 n
    unfold fetchRows
    rw [if_neg hne, hdec]
  constructor
  · unfold getPaginated
    simp only [hfetch]
  · intro db2
    unfold getPaginated
    simp only [hfetch]

/-- C9 witness: the token `"!"` (byte 33) is not base64; `GetPaginated`
returns the invalid-encoding error on any store. -/
theorem getPaginated_invalid_token_witness :
    getPaginated [] [33] 5 = .error .invalidEncoding ∧
    getPaginated [⟨[97], [116], none, ⟨10, 0⟩, ⟨0, 0⟩⟩] [33] 5 = getPaginated [] [33] 5 :=
  ⟨(getPaginated_invalid_token [] [33] 5 .invalidEncoding (by decide) rfl).1,
   (getPaginated_invalid_token [] [33] 5 .invalidEncoding (by decide) rfl).2
     [⟨[97], [116], none, ⟨10, 0⟩, ⟨0, 0⟩⟩]⟩

/-- C10: with normalized page size `N` (the given page size when
positive, otherwise 5 — exactly the normalization `GetPaginated`
performs), a store reply of any length `k` yields `min k N` records,
and a next token is present iff `k > N`. -/
theorem buildResult_length_token (rows : List Record) (ps : Int) :
    ((if ps ≤ 0 then DefaultPageSize else ps) = (if 0 < ps then ps else 5)) ∧
    (buildResult rows (if 0 < ps then ps else 5)).records.length
      = min rows.length (if 0 < ps then ps else 5).toNat ∧
    ((buildResult rows (if 0 < ps then ps else 5)).nextContinuationToken.isSome
      ↔ (if 0 < ps then ps else 5) < (rows.length : Int)) := by
  have h := buildResult_min rows (if 0 < ps then ps else 5) (by split <;> omega)
  refine ⟨?_, h.1, h.2⟩
  rcases le_or_lt ps 0 with hp | hp
  · rw [if_pos hp, if_neg (by omega : ¬ 0 < ps)]
    rfl
  · rw [if_neg (by omega : ¬ ps ≤ 0), if_pos hp]

end TokenPagination
